import Mathlib

/-!
Verification of the mini-gateway request plane against its Go sources.

Each Go function used by a claim is embedded shallowly:
pure functions become Lean functions, stateful methods become explicit
state passing, Go `int`/`int64` become `Int` (with explicit wrap-around
where the source uses unsigned types), Go maps become association lists
with last-writer-wins assignment, and Go slices become `List`.
-/

namespace MiniGateway

/-! ## Association-list maps (Go `map` with assignment semantics) -/

/-- Go map read `m[k]`: first matching key, or absent. -/
def lookupKV {κ α : Type} [DecidableEq κ] (m : List (κ × α)) (k : κ) :
    Option α :=
  match m with
  | [] => none
  | (k', v) :: rest => if k' = k then some v else lookupKV rest k

/-- Go map assignment `m[k] = v`: overwrite the existing entry or append. -/
def setKV {κ α : Type} [DecidableEq κ] (m : List (κ × α)) (k : κ) (v : α) :
    List (κ × α) :=
  match m with
  | [] => [(k, v)]
  | (k', v') :: rest =>
      if k' = k then (k', v) :: rest else (k', v') :: setKV rest k v

/-! ## Data model (`config.RoutingRule`) -/

/-- One routing rule, from `config`: target URL, weight, environment tag,
protocol, health-check path. -/
structure RoutingRule where
  target : String
  weight : Int
  env : String
  protocol : String
  healthCheckPath : String
deriving Repr, DecidableEq

abbrev RoutingRules := List RoutingRule

/-- The slice of an inbound request the embedded code inspects:
`req.URL.Path`, the raw `X-Env` header value, and `req.RemoteAddr`. -/
structure Request where
  path : String
  xEnvHeader : String
  remoteAddr : String
deriving Repr, DecidableEq

/-! ## Weighted round robin (`loadbalancer/weighted_round_robin.go`) -/

/-- `TargetWeight` from the source. -/
structure TargetWeight where
  target : String
  weight : Int
deriving Repr, DecidableEq

/-- `wrrState` from the source. -/
structure WrrState where
  targets : List String
  weights : List Int
  totalWeight : Int
  currentCount : Int
deriving Repr, DecidableEq

/-- Per-path state construction inside `NewWeightedRoundRobin`:
targets and weights are copied in rule order, `totalWeight` is the sum,
`currentCount` starts at `-1`. -/
def newWrrState (targetRules : List TargetWeight) : WrrState :=
  { targets := targetRules.map (·.target)
    weights := targetRules.map (·.weight)
    totalWeight := (targetRules.map (·.weight)).sum
    currentCount := -1 }

/-- `NewWeightedRoundRobin`: build one `wrrState` per configured path. -/
def newWeightedRoundRobin (rules : List (String × List TargetWeight)) :
    List (String × WrrState) :=
  rules.map (fun p => (p.1, newWrrState p.2))

/-- The cumulative-weight walk of `WeightedRoundRobin.SelectTarget`
(`for i := 0; i < n; i++ ...`): accumulate `weights[i]` and return
`targets[i]` at the first index where `current < cumulativeWeight`;
the fallback after the loop is `state.targets[0]`, passed in as `fb`.
The source indexes `targets` and `weights` in parallel; the zip used by
callers is equivalent when both lists have the same length. -/
def wrrLoop : List (String × Int) → Int → Int → String → String
  | [], _, _, fb => fb
  | (t, w) :: rest, current, cum, fb =>
      if current < cum + w then t else wrrLoop rest current (cum + w) fb

/-- Go `%` on `int` is truncated division remainder, i.e. `Int.tmod`. -/
def goMod (a b : Int) : Int := a.tmod b

/-- Go slice read `l[i]` for the indices the embedded code produces.
A negative or out-of-range index panics in Go; those cases are outside
every theorem below and are mapped to `""` here. -/
def goIndex (l : List String) (i : Int) : String := l.getD i.toNat ""

/-- `WeightedRoundRobin.SelectTarget` for one call, given the state
registered for `req.URL.Path` (if any) and the passed candidate list.
Returns the selected target and the updated per-path state. -/
def wrrSelect (state? : Option WrrState) (targets : List String) :
    String × Option WrrState :=
  if targets.length = 0 then ("", state?)
  else if targets.length = 1 then (targets.headD "", state?)
  else
    match state? with
    | none =>
        -- `!ok` with a nil state: count stays 0, no state update.
        (goIndex targets (goMod 0 targets.length), none)
    | some st =>
        if st.targets.length = 0 then
          -- registered state with an empty target list: rotate over the
          -- passed candidates using the stored counter.
          let count := st.currentCount
          let st' := { st with
            currentCount := goMod (st.currentCount + 1) targets.length }
          (goIndex targets (goMod count targets.length), some st')
        else
          -- weighted walk over the *registered* targets; the passed
          -- candidate list is ignored from here on.
          let st' := { st with currentCount := st.currentCount + 1 }
          let current := goMod st'.currentCount st.totalWeight
          (wrrLoop (st.targets.zip st.weights) current 0
            (st.targets.headD ""), some st')

/-- `WeightedRoundRobin.SelectTarget` including the `states` map lookup
and in-place mutation of the per-path state. -/
def wrrSelectTarget (states : List (String × WrrState))
    (targets : List String) (req : Request) :
    String × List (String × WrrState) :=
  let state? := lookupKV states req.path
  let (t, state?') := wrrSelect state? targets
  match state?' with
  | none => (t, states)
  | some st' => (t, setKV states req.path st')

/-- Iterate `wrrSelect` for `k` consecutive calls with a fixed candidate
list, collecting the selected targets in order. -/
def wrrRun (state? : Option WrrState) (targets : List String) :
    Nat → List String × Option WrrState
  | 0 => ([], state?)
  | k + 1 =>
      let r := wrrSelect state? targets
      let rest := wrrRun r.2 targets k
      (r.1 :: rest.1, rest.2)

/-! ## Round robin (`loadbalancer`, RoundRobin) -/

/-- `RoundRobin.SelectTarget`: `counter` is the `uint32` counter value
before the call (kept reduced mod `2^32`). `atomic.AddUint32` wraps, and
`count - 1` is `uint32` subtraction, also wrapping. -/
def rrSelectTarget (counter : Nat) (targets : List String) : String × Nat :=
  if targets.length = 0 then ("", counter)
  else
    let count := (counter + 1) % 2 ^ 32
    let index := ((count + (2 ^ 32 - 1)) % 2 ^ 32) % targets.length
    (targets.getD index "", count)

/-! ## Ketama (`loadbalancer/ketame.go`) -/

/-- `buildRing`: `replicas` virtual nodes per target, hash entries
collected then sorted ascending; `hashMap` maps hash → target with Go map
assignment semantics (later writes win). -/
def ketamaBuildRing (hash : String → Nat) (replicas : Nat)
    (targets : List String) : List Nat × List (Nat × String) :=
  let entries := targets.flatMap
    (fun node => (List.range replicas).map
      (fun j => (hash (node ++ "-" ++ toString j), node)))
  (entries.map (·.1) |>.mergeSort (· ≤ ·), entries)

/-- `findNearest`: `sort.Search` returns the least index whose ring entry
is `≥ hash` (the predicate is monotone on the sorted ring); index
`len(ring)` wraps to `0`. -/
def ketamaFindNearest (ring : List Nat) (h : Nat) : Nat :=
  let index := ring.findIdx (fun x => h ≤ x)
  if index = ring.length then 0 else index

/-- `Ketama.SelectTarget`: empty candidates return `""` before any
hashing; otherwise the ring is (re)built when the node set changed, and
the client address hash is looked up on the ring. -/
def ketamaSelectTarget (hash : String → Nat) (replicas : Nat)
    (nodes : List String) (ringMap : List Nat × List (Nat × String))
    (targets : List String) (req : Request) :
    String × (List String × (List Nat × List (Nat × String))) :=
  if targets.length = 0 then ("", (nodes, ringMap))
  else
    let rebuilt := if nodes = targets then (nodes, ringMap)
      else (targets, ketamaBuildRing hash replicas targets)
    let ring := rebuilt.2.1
    if ring.length = 0 then (targets.headD "", rebuilt)
    else
      let key := hash req.remoteAddr
      let index := ketamaFindNearest ring key
      let hv := ring.getD index 0
      -- Go map read `hashMap[hash]`; assignment overwrote duplicates, so
      -- the last entry with this hash wins.
      let pick := match (rebuilt.2.2.reverse.find? (fun e => e.1 = hv)) with
        | some e => e.2
        | none => ""
      (pick, rebuilt)

/-! ## Consul balancer (`loadbalancer/consul.go`) -/

/-- `ConsulBalancer.SelectTarget`. `rules` is the snapshot kept by the
background watcher; `now32` stands for `uint32(time.Now().UnixNano())`.
The snapshot for the request path is consulted first; the empty-candidate
check happens only afterwards. -/
def consulSelectTarget (rules : List (String × List String)) (now32 : Nat)
    (targets : List String) (req : Request) : String :=
  match lookupKV rules req.path with
  | some snap =>
      if snap.length > 0 then snap.getD (now32 % snap.length) ""
      else if targets.length = 0 then ""
      else targets.getD (now32 % targets.length) ""
  | none =>
      if targets.length = 0 then ""
      else targets.getD (now32 % targets.length) ""

/-! ## Canary filtering and target selection (`routing/utils.go`) -/

def defaultEnv : String := "stable"
def canaryEnv : String := "canary"

/-- `getEnvFromHeader`: the `X-Env` header, defaulting to `"stable"`. -/
def getEnvFromHeader (req : Request) : String :=
  if req.xEnvHeader ≠ "" then req.xEnvHeader else defaultEnv

/-- `HTTPProxy.filterRules`: under `X-Env: canary` keep the canary rules,
falling back to the full list (with a warning) when none exist; otherwise
pass all rules through. -/
def filterRules (rules : RoutingRules) (env : String) : RoutingRules :=
  if env = canaryEnv then
    let filtered := rules.filter (fun rule => rule.env = canaryEnv)
    if filtered.length = 0 then rules else filtered
  else rules

/-- Does `filterRules` hit the empty-canary fallback (which logs the
warning in the source)? -/
def filterRulesWarns (rules : RoutingRules) (env : String) : Bool :=
  env = canaryEnv && (rules.filter (fun rule => rule.env = canaryEnv)).length = 0

/-- `HTTPProxy.extractTargets`. -/
def extractTargets (rules : RoutingRules) : List String :=
  rules.map (·.target)

/-- `HTTPProxy.selectTarget` after the balancer returned `lbResult`:
find the env of the first filtered rule with that target, defaulting to
`"stable"`. -/
def selectTargetEnv (lbResult : String) (rules : RoutingRules) :
    String × String :=
  if lbResult = "" then ("", "")
  else
    match rules.find? (fun rule => rule.target = lbResult) with
    | some rule => (lbResult, rule.env)
    | none => (lbResult, defaultEnv)

/-- The selection portion of `createHTTPHandler`, instantiated with the
weighted-round-robin balancer: read `X-Env`, filter rules, extract
candidate targets, run the balancer, and resolve the selected rule's env.
Returns `(target, env, states')`. -/
def handlerSelectWRR (states : List (String × WrrState))
    (rules : RoutingRules) (req : Request) :
    String × String × List (String × WrrState) :=
  let env := getEnvFromHeader req
  let filteredRules := filterRules rules env
  let targets := extractTargets filteredRules
  let r := wrrSelectTarget states targets req
  let te := selectTargetEnv r.1 filteredRules
  (te.1, te.2, r.2)

/-! ## Token-bucket rate-limit middleware (`traffic`, TokenBucketRateLimit) -/

/-- Outcome of the rate-limit middleware for one request. -/
inductive RateLimitDecision where
  | forward
  | reject (qps burst waitTimeMs : Int)
deriving Repr, DecidableEq

/-- Go `time.Duration.Milliseconds()`: `int64` division by `1e6`,
truncated toward zero. -/
def durationMilliseconds (d : Int) : Int := d.tdiv 1000000

/-- The decision logic of `TokenBucketRateLimit`'s handler. `now` is
`time.Now()` read before the blocking `limiter.Take()`, `takeTime` the
timestamp `Take` returned; both in nanoseconds. The request is rejected
with 429 iff `takeTime.Sub(now) > 0`, with the configured `qps`, `burst`
and the wait in milliseconds in the JSON body. -/
def tokenBucketRateLimit (enabled : Bool) (qps burst : Int)
    (now takeTime : Int) : RateLimitDecision :=
  if !enabled then .forward
  else
    let waitDuration := takeTime - now
    if waitDuration > 0 then
      .reject qps burst (durationMilliseconds waitDuration)
    else .forward

/-! ## Time-sliding window and breaker middleware (`middleware`) -/

/-- `RequestStat`: one recorded request outcome. Latency and timestamp in
nanoseconds. -/
structure RequestStat where
  success : Bool
  latency : Int
  timestamp : Int
deriving Repr, DecidableEq

/-- `TimeSlidingWindow.Update`: append one entry. -/
def windowUpdate (requests : List RequestStat) (stat : RequestStat) :
    List RequestStat :=
  requests ++ [stat]

/-- `TimeSlidingWindow.ErrorRate`: `0` on an empty window, otherwise
`failed/total` (exact rational value of the float division). -/
def windowErrorRate (requests : List RequestStat) : ℚ :=
  if requests.length = 0 then 0
  else
    ((requests.filter (fun stat => !stat.success)).length : ℚ) /
      (requests.length : ℚ)

/-- `TimeSlidingWindow.AvgLatency`: `0` on an empty window, otherwise the
latency sum divided by the count (`time.Duration` division is truncated
`int64` division). -/
def windowAvgLatency (requests : List RequestStat) : Int :=
  if requests.length = 0 then 0
  else Int.tdiv (requests.map (fun stat => stat.latency)).sum requests.length

/-- One request as the breaker middleware observes it:
its route path, whether `hystrix.Do` returned an error, the response
status code, the measured latency, and the record timestamp. -/
structure BreakerEvent where
  path : String
  errOccurred : Bool
  status : Int
  latency : Int
  now : Int
deriving Repr, DecidableEq

/-- The per-request tail of the `Breaker` middleware: compute
`success := err == nil && status < 400`, append the entry to the single
window captured by the middleware closure, and set the per-path gauge to
the window's error rate. Returns the new window and gauge map. -/
def breakerStep (window : List RequestStat) (gauges : List (String × ℚ))
    (ev : BreakerEvent) : List RequestStat × List (String × ℚ) :=
  let success := !ev.errOccurred && ev.status < 400
  let window' := windowUpdate window ⟨success, ev.latency, ev.now⟩
  (window', setKV gauges ev.path (windowErrorRate window'))

/-- A sequence of requests through the breaker middleware. -/
def breakerRun (window : List RequestStat) (gauges : List (String × ℚ)) :
    List BreakerEvent → List RequestStat × List (String × ℚ)
  | [] => (window, gauges)
  | ev :: rest =>
      let r := breakerStep window gauges ev
      breakerRun r.1 r.2 rest

/-! ## Health checker (`health`, RefreshTargets) -/

/-- `TargetStatus`: per-target counters and timestamps. -/
structure TargetStatus where
  url : String
  protocol : String
  requestCount : Int
  successCount : Int
  failureCount : Int
  probeRequestCount : Int
  probeSuccessCount : Int
  probeFailureCount : Int
  lastProbeTime : Int
  lastRequestTime : Int
deriving Repr, DecidableEq

/-- The zero-counter status `RefreshTargets` creates for a new target
(`LastProbeTime` and `LastRequestTime` are Go zero values). -/
def freshTargetStatus (url protocol : String) : TargetStatus :=
  { url := url, protocol := protocol
    requestCount := 0, successCount := 0, failureCount := 0
    probeRequestCount := 0, probeSuccessCount := 0, probeFailureCount := 0
    lastProbeTime := 0, lastRequestTime := 0 }

/-- The body of `RefreshTargets`' rule loop for one rule. `normalize`
stands for `normalizeTarget` (URL-host extraction for http/websocket,
identity for grpc; `none` models a parse error, which skips the rule). -/
def refreshRule (normalize : RoutingRule → Option String)
    (oldStats : List (String × TargetStatus))
    (acc : List (String × String) × List (String × TargetStatus))
    (rule : RoutingRule) :
    List (String × String) × List (String × TargetStatus) :=
  match normalize rule with
  | none => acc
  | some host =>
      let paths := if rule.healthCheckPath ≠ "" then
          setKV acc.1 host rule.healthCheckPath
        else setKV acc.1 host "/health"
      match lookupKV oldStats host with
      | some oldStat => (paths, setKV acc.2 host oldStat)
      | none =>
          (paths, setKV acc.2 host (freshTargetStatus rule.target rule.protocol))

/-- `HealthChecker.RefreshTargets`: rebuild `targetStats` and
`healthPaths` from the configured rules, migrating the status of every
target key already present in the old map and zero-initializing the
rest. `ruleGroups` is the configured path → rules map flattened in
iteration order. -/
def refreshTargets (normalize : RoutingRule → Option String)
    (ruleGroups : List (List RoutingRule))
    (oldStats : List (String × TargetStatus)) :
    List (String × String) × List (String × TargetStatus) :=
  (ruleGroups.flatMap id).foldl (refreshRule normalize oldStats) ([], [])

/-! ## Path normalization helpers (`strings.TrimPrefix/TrimSuffix`) -/

/-- `strings.TrimPrefix(path, "/")`: drop a single leading slash. -/
def goTrimPrefixSlash : List Char → List Char
  | '/' :: rest => rest
  | s => s

/-- `strings.TrimSuffix(path, "/")`: drop a single trailing slash. -/
def goTrimSuffixSlash (s : List Char) : List Char :=
  if s.getLast? = some '/' then s.dropLast else s

/-! ## A fragment of Go `regexp` (anchored full match)

The routers compile `"^" + pattern + "$"` and test `MatchString`.
Only the fragment the regex-classified patterns of this development use
is modelled: literal characters, `.` (any one character) and `.*` (any
suffix of characters). Patterns holding other metacharacters are outside
the fragment; `rcompile` returns `none` for them and no theorem below
evaluates one. -/

inductive RItem where
  | lit (c : Char)
  | dot
  | dotStar
deriving Repr, DecidableEq

/-- Metacharacters of `strings.ContainsAny(path, ".*+?()|[]^$\\")`, the
regex-classification test used by `TrieRegexp.Insert`. -/
def regexMeta : List Char :=
  ['.', '*', '+', '?', '(', ')', '|', '[', ']', '^', '$', '\\']

/-- Does a pattern get classified as a regular expression? -/
def goContainsAnyMeta (s : List Char) : Bool :=
  s.any (fun c => c ∈ regexMeta)

/-- Compile a pattern of the modelled fragment. -/
def rcompile : List Char → Option (List RItem)
  | [] => some []
  | '.' :: '*' :: rest => (rcompile rest).map (RItem.dotStar :: ·)
  | '.' :: rest => (rcompile rest).map (RItem.dot :: ·)
  | c :: rest =>
      if c ∈ regexMeta then none
      else (rcompile rest).map (RItem.lit c :: ·)

/-- Anchored (full-string) matching of a compiled pattern. `.*` consumes
an arbitrary prefix, i.e. the rest of the pattern must match some suffix
of the input. -/
def rmatch : List RItem → List Char → Bool
  | [], s => s.isEmpty
  | .lit _ :: _, [] => false
  | .lit c :: ps, d :: ds => c = d && rmatch ps ds
  | .dot :: _, [] => false
  | .dot :: ps, _ :: ds => rmatch ps ds
  | .dotStar :: ps, s => s.tails.any (fun suffix => rmatch ps suffix)

/-! ## Static trie (`TrieRouter`'s `Trie`) -/

/-- `TrieNode`: children keyed by character, a rule list, an end marker. -/
inductive TrieNode where
  | node (children : List (Char × TrieNode)) (rules : RoutingRules)
      (isEnd : Bool)

def TrieNode.children : TrieNode → List (Char × TrieNode)
  | .node c _ _ => c

def TrieNode.rules : TrieNode → RoutingRules
  | .node _ r _ => r

def TrieNode.isEnd : TrieNode → Bool
  | .node _ _ e => e

/-- A freshly allocated node (`&TrieNode.Children: make(...)`). -/
def TrieNode.empty : TrieNode := .node [] [] false

/-- The character walk of `Trie.Insert`: create missing children, then
set `Rules` and `IsEnd` on the terminal node. -/
def trieInsertChars : TrieNode → List Char → RoutingRules → TrieNode
  | .node ch _ _, [], rules => .node ch rules true
  | .node ch r e, c :: cs, rules =>
      let child := (lookupKV ch c).getD TrieNode.empty
      .node (setKV ch c (trieInsertChars child cs rules)) r e

/-- `Trie.Insert`: strip one leading `/`, then walk. -/
def trieInsert (root : TrieNode) (path : String) (rules : RoutingRules) :
    TrieNode :=
  trieInsertChars root (goTrimPrefixSlash path.toList) rules

/-- The character walk of `Trie.Search`: a missing child is an immediate
no-match, the terminal node matches iff it carries the end marker. -/
def trieSearchChars : TrieNode → List Char → Option RoutingRules
  | nd, [] => if nd.isEnd then some nd.rules else none
  | nd, c :: cs =>
      match lookupKV nd.children c with
      | none => none
      | some child => trieSearchChars child cs

/-- `Trie.Search`: strip one leading `/`, trim one trailing `/`, walk. -/
def trieSearch (root : TrieNode) (path : String) : Option RoutingRules :=
  trieSearchChars root (goTrimSuffixSlash (goTrimPrefixSlash path.toList))

/-! ## Hybrid trie (`TrieRegexp`) -/

/-- `TrieRegexpNode`: like `TrieNode` plus the root-only regex slot. -/
inductive TrieRegexpNode where
  | node (children : List (Char × TrieRegexpNode)) (rules : RoutingRules)
      (isEnd : Bool) (regex : Option (List RItem)) (regexPattern : List Char)

def TrieRegexpNode.children : TrieRegexpNode → List (Char × TrieRegexpNode)
  | .node c _ _ _ _ => c

def TrieRegexpNode.rules : TrieRegexpNode → RoutingRules
  | .node _ r _ _ _ => r

def TrieRegexpNode.isEnd : TrieRegexpNode → Bool
  | .node _ _ e _ _ => e

def TrieRegexpNode.regex : TrieRegexpNode → Option (List RItem)
  | .node _ _ _ re _ => re

def TrieRegexpNode.regexPattern : TrieRegexpNode → List Char
  | .node _ _ _ _ p => p

def TrieRegexpNode.empty : TrieRegexpNode := .node [] [] false none []

/-- The static-path walk of `TrieRegexp.Insert` (regex fields of existing
nodes are left in place). -/
def trieRegexpInsertChars :
    TrieRegexpNode → List Char → RoutingRules → TrieRegexpNode
  | .node ch _ _ re p, [], rules => .node ch rules true re p
  | .node ch r e re p, c :: cs, rules =>
      let child := (lookupKV ch c).getD TrieRegexpNode.empty
      .node (setKV ch c (trieRegexpInsertChars child cs rules)) r e re p

/-- `TrieRegexp.Insert`: strip one leading `/`; a pattern containing any
regex metacharacter is compiled with `^...$` anchors and stored in the
single root regex slot (overwriting any previous regex route; a compile
error leaves the trie unchanged); otherwise the static walk inserts it. -/
def trieRegexpInsert (root : TrieRegexpNode) (path : String)
    (rules : RoutingRules) : TrieRegexpNode :=
  let p := goTrimPrefixSlash path.toList
  if goContainsAnyMeta p then
    match rcompile p with
    | none => root
    | some re => .node root.children rules root.isEnd (some re) p
  else
    trieRegexpInsertChars root p rules

/-- The static walk of `TrieRegexp.Search`: on a missing child the loop
`break`s and the node reached so far is kept. -/
def trieRegexpWalk : TrieRegexpNode → List Char → TrieRegexpNode
  | nd, [] => nd
  | nd, c :: cs =>
      match lookupKV nd.children c with
      | none => nd
      | some child => trieRegexpWalk child cs

/-- `TrieRegexp.Search`: strip one leading `/` (no trailing trim), walk
statically, and declare a match if the node where the walk stopped is
end-marked; otherwise fall back to the root regex, matched against the
*original* (unstripped) path. -/
def trieRegexpSearch (root : TrieRegexpNode) (path : String) :
    Option RoutingRules :=
  let cleanPath := goTrimPrefixSlash path.toList
  let nd := trieRegexpWalk root cleanPath
  if nd.isEnd then some nd.rules
  else
    match root.regex with
    | some re => if rmatch re path.toList then some root.rules else none
    | none => none

/-! ## Additional run functions and predicates used by the statements -/

/-- Iterate `wrrSelectTarget` (the full balancer with its `states` map)
for `k` consecutive calls of the same request. -/
def wrrRunMap (states : List (String × WrrState)) (targets : List String)
    (req : Request) : Nat → List String × List (String × WrrState)
  | 0 => ([], states)
  | k + 1 =>
      let r := wrrSelectTarget states targets req
      let rest := wrrRunMap r.2 targets req k
      (r.1 :: rest.1, rest.2)

/-- All business and probe counters and both timestamps are zero. -/
def zeroCounters (st : TargetStatus) : Prop :=
  st.requestCount = 0 ∧ st.successCount = 0 ∧ st.failureCount = 0 ∧
  st.probeRequestCount = 0 ∧ st.probeSuccessCount = 0 ∧
  st.probeFailureCount = 0 ∧ st.lastProbeTime = 0 ∧ st.lastRequestTime = 0

/-- The migration invariant of `RefreshTargets`: a key mapped by the new
`targetStats` either survived (same record as before) or is fresh. -/
def refreshInv (oldStats : List (String × TargetStatus)) (key : String)
    (st : TargetStatus) : Prop :=
  match lookupKV oldStats key with
  | some oldStat => st = oldStat
  | none => zeroCounters st

/-! ## Concrete instances used by counterexamples and witnesses -/

/-- A one-rule stable rule list. -/
def exRulesA : RoutingRules :=
  [⟨"http://a:8080", 80, "stable", "http", "/health"⟩]

/-- A one-rule canary rule list. -/
def exRulesB : RoutingRules :=
  [⟨"http://b:8080", 20, "canary", "http", "/health"⟩]

/-- Rules of path `/p`: one stable target and two canary targets. -/
def exCanaryRules : RoutingRules :=
  [⟨"http://a:8080", 1, "stable", "http", "/health"⟩,
   ⟨"http://b:8080", 1, "canary", "http", "/health"⟩,
   ⟨"http://c:8080", 1, "canary", "http", "/health"⟩]

/-- The same rules as `TargetWeight`s, as the balancer factory passes
them to `NewWeightedRoundRobin`. -/
def exTargetWeights : List TargetWeight :=
  [⟨"http://a:8080", 1⟩, ⟨"http://b:8080", 1⟩, ⟨"http://c:8080", 1⟩]

/-- The freshly built weighted-round-robin state map for path `/p`. -/
def exWrrStates : List (String × WrrState) :=
  newWeightedRoundRobin [("/p", exTargetWeights)]

/-- A request for `/p` carrying `X-Env: canary`. -/
def exCanaryReq : Request := ⟨"/p", "canary", "10.0.0.1"⟩

/-- The two-request breaker scenario: a failing request on route `/a`
followed by a succeeding request on route `/b`. -/
def exBreakerEvents : List BreakerEvent :=
  [⟨"/a", false, 500, 5, 0⟩, ⟨"/b", false, 200, 5, 1⟩]

/-! # Lemmas -/

theorem lookupKV_setKV_self {κ α : Type} [DecidableEq κ] (m : List (κ × α))
    (k : κ) (v : α) : lookupKV (setKV m k v) k = some v := by
  induction m with
  | nil => simp [setKV, lookupKV]
  | cons hd tl ih =>
      obtain ⟨k', v'⟩ := hd
      by_cases h : k' = k
      · simp [setKV, lookupKV, h]
      · simp [setKV, lookupKV, h, ih]

theorem lookupKV_setKV_ne {κ α : Type} [DecidableEq κ] (m : List (κ × α))
    (k k' : κ) (v : α) (h : k ≠ k') :
    lookupKV (setKV m k v) k' = lookupKV m k' := by
  induction m with
  | nil => simp [setKV, lookupKV, h]
  | cons hd tl ih =>
      obtain ⟨k0, v0⟩ := hd
      by_cases h0 : k0 = k
      · subst h0
        simp [setKV, lookupKV, h]
      · simp [setKV, lookupKV, h0, ih]

theorem getD_zero_eq_headD (l : List String) : l.getD 0 "" = l.headD "" := by
  cases l <;> rfl

/-- One balancer call when the request path has no registered state: the
first passed candidate is returned and the state map is unchanged. -/
theorem wrrSelectTarget_no_state (states : List (String × WrrState))
    (cands : List String) (req : Request)
    (h : lookupKV states req.path = none) (hc : 2 ≤ cands.length) :
    wrrSelectTarget states cands req = (cands.headD "", states) := by
  have h0 : cands.length ≠ 0 := by omega
  have h1 : cands.length ≠ 1 := by omega
  simp only [wrrSelectTarget, wrrSelect, h, h0, h1, if_false]
  have hm : goMod 0 (cands.length : Int) = 0 := by
    simp [goMod, Int.tmod]
  simp only [hm, goIndex]
  cases cands <;> simp

/-! # Claim theorems -/

/-- Claim C10: `TimeSlidingWindow.ErrorRate` and
`TimeSlidingWindow.AvgLatency` are total: an empty window yields `0` for
both, and on a non-empty window the entry count is positive and each
result is the guarded quotient (failed over total, and latency sum over
total with truncated integer division). -/
theorem c10_window_stats_total :
    windowErrorRate [] = 0 ∧ windowAvgLatency [] = 0 ∧
    ∀ requests : List RequestStat, requests.length ≠ 0 →
      0 < requests.length ∧
      windowErrorRate requests =
        ((requests.filter (fun stat => !stat.success)).length : ℚ) /
          (requests.length : ℚ) ∧
      windowAvgLatency requests =
        Int.tdiv (requests.map (fun stat => stat.latency)).sum
          requests.length := by
  refine ⟨by simp [windowErrorRate], by simp [windowAvgLatency], ?_⟩
  intro requests h
  exact ⟨by omega, by simp [windowErrorRate, h], by simp [windowAvgLatency, h]⟩

theorem c10_window_stats_total_witness :
    windowErrorRate [⟨false, 10, 0⟩] = 1 ∧ windowAvgLatency [⟨false, 10, 0⟩] = 10 := by
  have h := c10_window_stats_total.2.2 [⟨false, 10, 0⟩] (by decide)
  refine ⟨?_, ?_⟩
  · rw [h.2.1]; norm_num
  · rw [h.2.2]; decide

/-- Claim C6: with rate limiting enabled, the token-bucket middleware
forwards the request iff the granted timestamp is not after the call
time; otherwise it rejects with HTTP 429 and a body carrying the
configured qps, burst, and the imposed wait in milliseconds. -/
theorem c6_token_bucket_admission (qps burst now takeTime : Int) :
    (tokenBucketRateLimit true qps burst now takeTime =
        RateLimitDecision.forward ↔ takeTime ≤ now) ∧
    (now < takeTime →
      tokenBucketRateLimit true qps burst now takeTime =
        RateLimitDecision.reject qps burst
          (durationMilliseconds (takeTime - now))) := by
  by_cases h : takeTime - now > 0
  · have hne : tokenBucketRateLimit true qps burst now takeTime =
        RateLimitDecision.reject qps burst
          (durationMilliseconds (takeTime - now)) := by
      simp [tokenBucketRateLimit, h]
    refine ⟨?_, fun _ => hne⟩
    rw [hne]
    simp only [reduceCtorEq, false_iff]
    omega
  · have hfwd : tokenBucketRateLimit true qps burst now takeTime =
        RateLimitDecision.forward := by
      simp [tokenBucketRateLimit, h]
    refine ⟨?_, fun hx => absurd hx (by omega)⟩
    rw [hfwd]
    simp only [true_iff]
    omega

theorem c6_token_bucket_admission_witness :
    tokenBucketRateLimit true 5 5 0 3000000 =
      RateLimitDecision.reject 5 5 3 ∧
    tokenBucketRateLimit true 5 5 3000000 3000000 =
      RateLimitDecision.forward := by
  refine ⟨?_, ?_⟩
  · have h := (c6_token_bucket_admission 5 5 0 3000000).2 (by decide)
    rw [h]; decide
  · exact (c6_token_bucket_admission 5 5 3000000 3000000).1.2 (by decide)

/-- Claim C9: when the request path has no entry in the weighted
round-robin state map and at least two candidates are passed, every call
returns the first candidate of the passed list and never rotates. -/
theorem c9_wrr_unregistered_path_first_candidate
    (states : List (String × WrrState)) (cands : List String)
    (req : Request) (k : Nat)
    (h : lookupKV states req.path = none) (hc : 2 ≤ cands.length) :
    (wrrRunMap states cands req k).1 = List.replicate k (cands.headD "") ∧
    (wrrRunMap states cands req k).2 = states := by
  induction k with
  | zero => simp [wrrRunMap]
  | succ n ih =>
      simp only [wrrRunMap, wrrSelectTarget_no_state states cands req h hc]
      simp [ih, List.replicate_succ]

theorem c9_wrr_unregistered_path_first_candidate_witness :
    (wrrRunMap exWrrStates ["http://x:1", "http://y:2"] ⟨"/q", "", ""⟩ 3).1 =
      ["http://x:1", "http://x:1", "http://x:1"] := by
  have h := c9_wrr_unregistered_path_first_candidate exWrrStates
    ["http://x:1", "http://y:2"] ⟨"/q", "", ""⟩ 3 (by decide) (by decide)
  rw [h.1]; decide

/-- Claim C1: the static matching of `TrieRegexp.Search` accepts the
path `/apix` when only the pattern `/api` was inserted (the walk breaks
on the missing child and the node reached is end-marked), although the
normalized path differs from the inserted pattern — the sibling
`Trie.Search` on the same data correctly reports no match. -/
theorem c1_trie_regexp_prefix_match_bug :
    trieRegexpSearch (trieRegexpInsert TrieRegexpNode.empty "/api" exRulesA)
        "/apix" = some exRulesA ∧
    trieSearch (trieInsert TrieNode.empty "/api" exRulesA) "/apix" = none ∧
    goTrimSuffixSlash (goTrimPrefixSlash "/apix".toList) ≠
      goTrimPrefixSlash "/api".toList := by
  decide

/-- Claim C5 (amended): round-robin, weighted round-robin and Ketama
return the empty string on an empty candidate list; the Consul balancer
does so only when its rules snapshot has no non-empty target list for
the request path — otherwise it selects from the snapshot. -/
theorem c5_empty_candidates_amended (counter : Nat)
    (states : List (String × WrrState)) (hash : String → Nat)
    (replicas : Nat) (nodes : List String)
    (ringMap : List Nat × List (Nat × String))
    (rules : List (String × List String)) (now32 : Nat) (req : Request) :
    (rrSelectTarget counter []).1 = "" ∧
    (wrrSelectTarget states [] req).1 = "" ∧
    (ketamaSelectTarget hash replicas nodes ringMap [] req).1 = "" ∧
    (lookupKV rules req.path = none →
      consulSelectTarget rules now32 [] req = "") ∧
    (∀ snap, lookupKV rules req.path = some snap → snap.length = 0 →
      consulSelectTarget rules now32 [] req = "") := by
  refine ⟨by simp [rrSelectTarget], ?_, by simp [ketamaSelectTarget], ?_, ?_⟩
  · simp only [wrrSelectTarget, wrrSelect, List.length_nil, if_true]
    cases lookupKV states req.path <;> simp
  · intro h
    simp [consulSelectTarget, h]
  · intro snap h hs
    simp [consulSelectTarget, h, hs]

theorem c5_empty_candidates_amended_witness :
    (rrSelectTarget 3 []).1 = "" ∧
    consulSelectTarget [("/q", [])] 7 [] ⟨"/q", "", ""⟩ = "" := by
  refine ⟨(c5_empty_candidates_amended 3 [] (fun _ => 0) 0 [] ([], [])
    [("/q", [])] 7 ⟨"/q", "", ""⟩).1, ?_⟩
  exact (c5_empty_candidates_amended 3 [] (fun _ => 0) 0 [] ([], [])
    [("/q", [])] 7 ⟨"/q", "", ""⟩).2.2.2.2 [] (by decide) (by decide)

/-- Claim C5 (counterexample): the Consul balancer, called with an empty
candidate list but a non-empty snapshot entry for the request path,
returns a snapshot target instead of the empty string. -/
theorem c5_empty_candidates_counterexample :
    consulSelectTarget [("/p", ["http://a:8080"])] 0 [] ⟨"/p", "", ""⟩ =
      "http://a:8080" ∧ ("http://a:8080" : String) ≠ "" := by
  decide

/-- Claim C8 (counterexample): the breaker middleware keeps one sliding
window for all routes. After a failing request on route `/a` and a
succeeding request on route `/b`, the error rate exported for `/b` is
`1/2` — it includes the entry recorded for `/a` — where a per-route
window would export `0`. -/
theorem c8_per_route_window_counterexample :
    lookupKV (breakerRun [] [] exBreakerEvents).2 "/b" =
      some ((1 : ℚ) / 2) ∧ ((1 : ℚ) / 2) ≠ 0 := by
  constructor
  · norm_num [exBreakerEvents, breakerRun, breakerStep, windowUpdate,
      windowErrorRate, setKV, lookupKV]
    decide
  · norm_num

/-- Claim C8 (amended): every request through the breaker middleware
appends an entry `(success, latency, now)` with
`success = no-error AND status < 400` to the single window shared by all
routes, and the error rate exported for the request's route is computed
from that shared window (hence from the entries of all routes). -/
theorem c8_shared_window_amended (w : List RequestStat)
    (g : List (String × ℚ)) (evs : List BreakerEvent) (ev : BreakerEvent) :
    (breakerStep w g ev).1 =
      w ++ [⟨!ev.errOccurred && ev.status < 400, ev.latency, ev.now⟩] ∧
    ((!ev.errOccurred && decide (ev.status < 400)) = true ↔
      (ev.errOccurred = false ∧ ev.status < 400)) ∧
    lookupKV (breakerStep w g ev).2 ev.path =
      some (windowErrorRate
        (w ++ [⟨!ev.errOccurred && ev.status < 400, ev.latency, ev.now⟩])) ∧
    (breakerRun w g evs).1 =
      w ++ evs.map
        (fun e => ⟨!e.errOccurred && e.status < 400, e.latency, e.now⟩) := by
  refine ⟨rfl, ?_, ?_, ?_⟩
  · constructor
    · intro hx
      simp only [Bool.and_eq_true, Bool.not_eq_true', decide_eq_true_eq] at hx
      exact hx
    · intro hx
      simp [hx.1, hx.2]
  · exact lookupKV_setKV_self g ev.path _
  · induction evs generalizing w g with
    | nil => simp [breakerRun]
    | cons e rest ih =>
        simp [breakerRun, breakerStep, windowUpdate, ih]

/-- Claim C4 (counterexample): `TrieRegexp` keeps a single regex slot at
the root, so with the regex patterns `/.*` (rules A) inserted first and
`/.*x.*` (rules B) inserted second, a search for `/x` — which both
compiled patterns match — returns the rules of the *last* inserted
pattern, not of the earliest-inserted matching one. -/
theorem c4_insertion_order_counterexample :
    trieRegexpSearch
        (trieRegexpInsert (trieRegexpInsert TrieRegexpNode.empty "/.*"
          exRulesA) "/.*x.*" exRulesB) "/x" = some exRulesB ∧
    rmatch ((rcompile (goTrimPrefixSlash "/.*".toList)).getD [])
      "/x".toList = true ∧
    exRulesA ≠ exRulesB := by
  decide

/-- Claim C4 (amended): a regex-classified pattern inserted into a
`TrieRegexp` overwrites the single root regex slot, so the search
consults only the most recently inserted regex pattern: whenever the
static walk ends on a non-end node, the result is the last pattern's
rules iff its compiled regex matches the (unstripped) request path. -/
theorem c4_last_regex_wins_amended (t : TrieRegexpNode) (p2 : String)
    (rB : RoutingRules) (re2 : List RItem)
    (h2 : goContainsAnyMeta (goTrimPrefixSlash p2.toList) = true)
    (hc2 : rcompile (goTrimPrefixSlash p2.toList) = some re2) :
    (trieRegexpInsert t p2 rB).regex = some re2 ∧
    (trieRegexpInsert t p2 rB).rules = rB ∧
    ∀ path : String,
      (trieRegexpWalk (trieRegexpInsert t p2 rB)
          (goTrimPrefixSlash path.toList)).isEnd = false →
      trieRegexpSearch (trieRegexpInsert t p2 rB) path =
        if rmatch re2 path.toList then some rB else none := by
  have h2' : goContainsAnyMeta (goTrimPrefixSlash p2.data) = true := h2
  have hc2' : rcompile (goTrimPrefixSlash p2.data) = some re2 := hc2
  have hins : trieRegexpInsert t p2 rB =
      TrieRegexpNode.node t.children rB t.isEnd (some re2)
        (goTrimPrefixSlash p2.toList) := by
    simp [trieRegexpInsert, h2', hc2']
  refine ⟨by rw [hins]; rfl, by rw [hins]; rfl, ?_⟩
  intro path hwalk
  simp only [trieRegexpSearch, hwalk, if_false, Bool.false_eq_true]
  rw [hins]
  rfl

theorem c4_last_regex_wins_amended_witness :
    trieRegexpSearch
      (trieRegexpInsert (trieRegexpInsert TrieRegexpNode.empty "/.*"
        exRulesA) "/.*x.*" exRulesB) "/y" = none := by
  have h := (c4_last_regex_wins_amended
    (trieRegexpInsert TrieRegexpNode.empty "/.*" exRulesA) "/.*x.*"
    exRulesB [RItem.dotStar, RItem.lit 'x', RItem.dotStar]
    (by decide) (by decide)).2.2 "/y" (by decide)
  rw [h]
  decide

/-- Claim C2 (counterexample): for a request with `X-Env: canary` whose
rule list holds two canary rules, the proxy passes the canary targets to
the weighted-round-robin balancer, but the balancer walks its
*registered* per-path target list and returns the stable target
`http://a:8080`; no canary rule has that target, and the resolved env is
`stable`. -/
theorem c2_canary_steering_counterexample :
    (handlerSelectWRR exWrrStates exCanaryRules exCanaryReq).1 =
      "http://a:8080" ∧
    (handlerSelectWRR exWrrStates exCanaryRules exCanaryReq).2.1 =
      "stable" ∧
    ∀ rule ∈ exCanaryRules, rule.env = canaryEnv →
      rule.target ≠ "http://a:8080" := by
  decide

/-- Claim C2 (amended): with `X-Env: canary` and at least one canary
rule, the candidate set handed to the load balancer is exactly the
canary rules' targets (no warning is logged), and any balancer choice
*from that candidate set* resolves to a canary rule's target and env —
the weighted-round-robin balancer may, however, return a target outside
the candidate set, as the counterexample shows. With no canary rule the
full rule list is used and a warning is logged. -/
theorem c2_canary_steering_amended (rules : RoutingRules) (req : Request)
    (h : req.xEnvHeader = canaryEnv) :
    (rules.filter (fun rule => rule.env = canaryEnv) ≠ [] →
      filterRules rules (getEnvFromHeader req) =
        rules.filter (fun rule => rule.env = canaryEnv) ∧
      filterRulesWarns rules (getEnvFromHeader req) = false ∧
      ∀ tgt ∈ extractTargets (filterRules rules (getEnvFromHeader req)),
        (∃ rule ∈ rules, rule.env = canaryEnv ∧ rule.target = tgt) ∧
        (tgt ≠ "" →
          selectTargetEnv tgt (filterRules rules (getEnvFromHeader req)) =
            (tgt, canaryEnv))) ∧
    (rules.filter (fun rule => rule.env = canaryEnv) = [] →
      filterRules rules (getEnvFromHeader req) = rules ∧
      filterRulesWarns rules (getEnvFromHeader req) = true) := by
  have henv : getEnvFromHeader req = canaryEnv := by
    simp [getEnvFromHeader, h, canaryEnv]
  rw [henv]
  constructor
  · intro hne
    have hlen : (rules.filter (fun rule => rule.env = canaryEnv)).length ≠ 0 := by
      simpa [List.length_eq_zero] using hne
    have hfil : filterRules rules canaryEnv =
        rules.filter (fun rule => rule.env = canaryEnv) := by
      simp [filterRules, hlen]
    refine ⟨hfil, by simp [filterRulesWarns, hlen], ?_⟩
    intro tgt htgt
    rw [hfil] at htgt
    simp only [extractTargets, List.mem_map] at htgt
    obtain ⟨rule, hrule, hrt⟩ := htgt
    have hmem := List.mem_filter.1 hrule
    refine ⟨⟨rule, hmem.1, by simpa using hmem.2, hrt⟩, ?_⟩
    intro htne
    rw [hfil]
    have hfind : ((rules.filter (fun rule => decide (rule.env = canaryEnv))).find?
        (fun rule => decide (rule.target = tgt))).isSome := by
      rw [List.find?_isSome]
      exact ⟨rule, hrule, by simp [hrt]⟩
    obtain ⟨r', hr'⟩ := Option.isSome_iff_exists.1 hfind
    have hr'mem := List.mem_of_find?_eq_some hr'
    have hr'env := (List.mem_filter.1 hr'mem).2
    have hr'tgt := List.find?_some hr'
    simp only [decide_eq_true_eq] at hr'env hr'tgt
    simp only [selectTargetEnv, htne, if_false]
    rw [hr']
    simp [hr'env]
  · intro hemp
    have hlen : (rules.filter (fun rule => rule.env = canaryEnv)).length = 0 := by
      simp [hemp]
    exact ⟨by simp [filterRules, hlen], by simp [filterRulesWarns, hlen]⟩

theorem c2_canary_steering_amended_witness :
    filterRules exCanaryRules (getEnvFromHeader exCanaryReq) =
      [⟨"http://b:8080", 1, "canary", "http", "/health"⟩,
       ⟨"http://c:8080", 1, "canary", "http", "/health"⟩] ∧
    selectTargetEnv "http://b:8080"
      (filterRules exCanaryRules (getEnvFromHeader exCanaryReq)) =
      ("http://b:8080", canaryEnv) := by
  have h := (c2_canary_steering_amended exCanaryRules exCanaryReq rfl).1
    (by decide)
  refine ⟨?_, ?_⟩
  · rw [h.1]; decide
  · exact (h.2.2 "http://b:8080" (by rw [h.1]; decide)).2 (by decide)

/-- Every binding produced by the `RefreshTargets` rule loop is either a
migrated old record or a zero-initialized fresh one, matching the old
map on that key. -/
theorem refresh_fold_inv (normalize : RoutingRule → Option String)
    (oldStats : List (String × TargetStatus)) (rules : List RoutingRule)
    (acc : List (String × String) × List (String × TargetStatus))
    (hacc : ∀ key st, lookupKV acc.2 key = some st → refreshInv oldStats key st) :
    ∀ key st,
      lookupKV (rules.foldl (refreshRule normalize oldStats) acc).2 key =
        some st → refreshInv oldStats key st := by
  induction rules generalizing acc with
  | nil => exact hacc
  | cons rule rest ih =>
      rw [List.foldl_cons]
      apply ih
      intro key st hkey
      cases hn : normalize rule with
      | none =>
          simp only [refreshRule, hn] at hkey
          exact hacc key st hkey
      | some host =>
          simp only [refreshRule, hn] at hkey
          by_cases hk : host = key
          · subst hk
            cases ho : lookupKV oldStats host with
            | some oldStat =>
                rw [ho] at hkey
                dsimp only at hkey
                rw [lookupKV_setKV_self] at hkey
                cases hkey
                simp [refreshInv, ho]
            | none =>
                rw [ho] at hkey
                dsimp only at hkey
                rw [lookupKV_setKV_self] at hkey
                cases hkey
                simp [refreshInv, ho, zeroCounters, freshTargetStatus]
          · cases ho : lookupKV oldStats host <;>
              rw [ho] at hkey <;>
              dsimp only at hkey <;>
              rw [lookupKV_setKV_ne _ _ _ _ hk] at hkey <;>
              exact hacc key st hkey

/-- Claim C7: `RefreshTargets` preserves the full status record of every
surviving target key (all counters and timestamps unchanged), and a key
absent from the old map is initialized with zero counters and
timestamps. -/
theorem c7_refresh_preserves_counters (normalize : RoutingRule → Option String)
    (ruleGroups : List (List RoutingRule))
    (oldStats : List (String × TargetStatus)) (key : String)
    (st : TargetStatus)
    (h : lookupKV (refreshTargets normalize ruleGroups oldStats).2 key =
      some st) :
    (∀ oldStat, lookupKV oldStats key = some oldStat → st = oldStat) ∧
    (lookupKV oldStats key = none → zeroCounters st) := by
  have hinv := refresh_fold_inv normalize oldStats (ruleGroups.flatMap id)
    ([], []) (by intro key st hx; simp [lookupKV] at hx) key st h
  unfold refreshInv at hinv
  constructor
  · intro oldStat ho
    rw [ho] at hinv
    exact hinv
  · intro ho
    rw [ho] at hinv
    exact hinv

theorem c7_refresh_preserves_counters_witness :
    (lookupKV (refreshTargets (fun rule => some rule.target)
        [[⟨"a:5001", 1, "stable", "grpc", "/health"⟩,
          ⟨"b:5002", 1, "stable", "grpc", ""⟩]]
        [("a:5001", ⟨"a:5001", "grpc", 7, 5, 2, 9, 6, 3, 100, 200⟩)]).2
        "a:5001" = some ⟨"a:5001", "grpc", 7, 5, 2, 9, 6, 3, 100, 200⟩) ∧
    (∀ st, lookupKV (refreshTargets (fun rule => some rule.target)
        [[⟨"a:5001", 1, "stable", "grpc", "/health"⟩,
          ⟨"b:5002", 1, "stable", "grpc", ""⟩]]
        [("a:5001", ⟨"a:5001", "grpc", 7, 5, 2, 9, 6, 3, 100, 200⟩)]).2
        "b:5002" = some st → zeroCounters st) := by
  constructor
  · have hlook : lookupKV (refreshTargets (fun rule => some rule.target)
        [[⟨"a:5001", 1, "stable", "grpc", "/health"⟩,
          ⟨"b:5002", 1, "stable", "grpc", ""⟩]]
        [("a:5001", ⟨"a:5001", "grpc", 7, 5, 2, 9, 6, 3, 100, 200⟩)]).2
        "a:5001" = some ⟨"a:5001", "grpc", 7, 5, 2, 9, 6, 3, 100, 200⟩ := by
      decide
    exact hlook
  · intro st hst
    exact (c7_refresh_preserves_counters (fun rule => some rule.target)
      [[⟨"a:5001", 1, "stable", "grpc", "/health"⟩,
        ⟨"b:5002", 1, "stable", "grpc", ""⟩]]
      [("a:5001", ⟨"a:5001", "grpc", 7, 5, 2, 9, 6, 3, 100, 200⟩)]
      "b:5002" st hst).2 (by decide)

theorem goMod_ofNat (m n : Nat) :
    goMod (m : Int) (n : Int) = ((m % n : Nat) : Int) := rfl

/-- One registered-path call of the weighted round robin with at least
two candidates: the counter advances by one and the cumulative walk runs
at `currentCount % totalWeight`. -/
theorem wrrSelect_registered (st : WrrState) (cands : List String)
    (hc : 2 ≤ cands.length) (hne : st.targets.length ≠ 0) :
    wrrSelect (some st) cands =
      (wrrLoop (st.targets.zip st.weights)
        (goMod (st.currentCount + 1) st.totalWeight) 0 (st.targets.headD ""),
       some { st with currentCount := st.currentCount + 1 }) := by
  have h0 : cands.length ≠ 0 := by omega
  have h1 : cands.length ≠ 1 := by omega
  simp [wrrSelect, h0, h1, hne]

/-- A run of `k` registered-path calls: the outputs are the cumulative
walks at the `k` consecutive counter values, and the counter advances by
`k`. -/
theorem wrrRun_registered (st : WrrState) (cands : List String)
    (hc : 2 ≤ cands.length) (hne : st.targets.length ≠ 0) (k : Nat) :
    wrrRun (some st) cands k =
      ((List.range k).map (fun (j : Nat) =>
         wrrLoop (st.targets.zip st.weights)
           (goMod (st.currentCount + 1 + (j : Int)) st.totalWeight) 0
           (st.targets.headD "")),
       some { st with currentCount := st.currentCount + k }) := by
  induction k generalizing st with
  | zero => simp [wrrRun]
  | succ n ih =>
      rw [wrrRun, wrrSelect_registered st cands hc hne]
      have hne' :
          ({ st with currentCount := st.currentCount + 1 } : WrrState).targets.length ≠ 0 := hne
      rw [ih { st with currentCount := st.currentCount + 1 } hne']
      simp only [Prod.mk.injEq]
      constructor
      · rw [List.range_succ_eq_map, List.map_cons, List.map_map]
        congr 1
        · norm_num
        · refine List.map_congr_left ?_
          intro j _
          have harg : st.currentCount + 1 + 1 + (j : Int) =
              st.currentCount + 1 + ((Nat.succ j : Nat) : Int) := by
            push_cast
            ring
          simp only [Function.comp_apply, harg]
      · have harg : st.currentCount + 1 + (n : Int) =
            st.currentCount + ((n + 1 : Nat) : Int) := by
          push_cast
          ring
        rw [harg]

/-- One full period of the cumulative-weight walk: as the position runs
over `[0, Σw)`, each pair `(t, w)` is produced exactly `w` times, in
list order. -/
theorem wrrLoop_period (pairs : List (String × Int))
    (hw : ∀ p ∈ pairs, 0 ≤ p.2) (cum : Int) (fb : String) :
    (List.range ((pairs.map Prod.snd).sum.toNat)).map
      (fun (r : Nat) => wrrLoop pairs (cum + (r : Int)) cum fb) =
    pairs.flatMap (fun p => List.replicate p.2.toNat p.1) := by
  induction pairs generalizing cum with
  | nil => simp
  | cons p rest ih =>
      obtain ⟨t, w⟩ := p
      have hw0 : 0 ≤ w := hw (t, w) (by simp)
      have hwr : ∀ q ∈ rest, 0 ≤ q.2 := fun q hq => hw q (by simp [hq])
      have hsum : 0 ≤ (rest.map Prod.snd).sum := by
        refine List.sum_nonneg ?_
        intro x hx
        obtain ⟨q, hq, rfl⟩ := List.mem_map.1 hx
        exact hwr q hq
      simp only [List.map_cons, List.sum_cons, List.flatMap_cons]
      rw [Int.toNat_add hw0 hsum, List.range_add, List.map_append,
        List.map_map]
      congr 1
      · rw [List.eq_replicate_iff]
        refine ⟨by simp, ?_⟩
        intro b hb
        obtain ⟨r, hr, rfl⟩ := List.mem_map.1 hb
        have hrlt : (r : Int) < w := Int.lt_toNat.1 (List.mem_range.1 hr)
        simp only [wrrLoop]
        rw [if_pos (by omega)]
      · rw [← ih hwr (cum + w)]
        refine List.map_congr_left ?_
        intro r _
        have hcast : ((w.toNat + r : Nat) : Int) = w + r := by
          push_cast
          rw [Int.toNat_of_nonneg hw0]
        simp only [Function.comp_apply, wrrLoop, hcast]
        rw [if_neg (by omega)]
        have harg : cum + (w + (r : Int)) = cum + w + r := by ring
        rw [harg]

/-- The window residues `(m + j) % T` for `j < T` are a permutation of
`[0, T)`. -/
theorem range_mod_perm (m T : Nat) (hT : 0 < T) :
    ((List.range T).map (fun j => (m + j) % T)).Perm (List.range T) := by
  have hnd : ((List.range T).map (fun j => (m + j) % T)).Nodup := by
    refine List.Nodup.map_on ?_ (List.nodup_range T)
    intro x hx y hy hxy
    rw [List.mem_range] at hx hy
    have hmod : x ≡ y [MOD T] :=
      Nat.ModEq.add_left_cancel' m hxy
    unfold Nat.ModEq at hmod
    rw [Nat.mod_eq_of_lt hx, Nat.mod_eq_of_lt hy] at hmod
    exact hmod
  have hsub : ((List.range T).map (fun j => (m + j) % T)) ⊆ List.range T := by
    intro x hx
    obtain ⟨j, _, rfl⟩ := List.mem_map.1 hx
    exact List.mem_range.2 (Nat.mod_lt _ hT)
  refine (List.subperm_of_subset hnd hsub).perm_of_length_le ?_
  simp

/-- Counting inside the canonical period: with pairwise-distinct
targets, target `i` occurs `w_i` times. -/
theorem count_flatMap_replicate (ts : List String) (ws : List Int) (i : Nat)
    (hlen : ts.length = ws.length) (hnd : ts.Nodup) (hi : i < ts.length) :
    ((ts.zip ws).flatMap (fun p => List.replicate p.2.toNat p.1)).count
        (ts.getD i "") = (ws.getD i 0).toNat := by
  induction ts generalizing ws i with
  | nil => simp at hi
  | cons t rest ih =>
      cases ws with
      | nil => simp at hlen
      | cons w wrest =>
          have hndr := List.nodup_cons.1 hnd
          cases i with
          | zero =>
              simp only [List.zip_cons_cons, List.flatMap_cons,
                List.count_append, List.getD_cons_zero]
              have hz : List.count t
                  ((rest.zip wrest).flatMap
                    (fun p => List.replicate p.2.toNat p.1)) = 0 := by
                rw [List.count_eq_zero]
                intro hmem
                obtain ⟨q, hq, hin⟩ := List.mem_flatMap.1 hmem
                have ht : t = q.1 := List.eq_of_mem_replicate hin
                have hq1 : q.1 ∈ rest := by
                  obtain ⟨a, b⟩ := q
                  exact (List.of_mem_zip hq).1
                rw [← ht] at hq1
                exact hndr.1 hq1
              rw [hz, List.count_replicate_self]
              omega
          | succ j =>
              simp only [List.zip_cons_cons, List.flatMap_cons,
                List.count_append, List.getD_cons_succ]
              have hjlt : j < rest.length := by
                simpa using hi
              have hmem : rest.getD j "" ∈ rest := by
                rw [List.getD_eq_getElem rest "" hjlt]
                exact List.getElem_mem hjlt
              have hne : rest.getD j "" ≠ t := by
                intro hx
                rw [hx] at hmem
                exact hndr.1 hmem
              have hz : List.count (rest.getD j "")
                  (List.replicate w.toNat t) = 0 := by
                rw [List.count_replicate]
                rw [if_neg]
                simp only [beq_iff_eq]
                exact fun h => hne h.symm
              rw [hz]
              have := ih wrest j (by simpa using hlen) hndr.2 hjlt
              simpa using this

/-- Claim C3: for a path registered in the weighted-round-robin state
map with pairwise-distinct targets, non-negative weights, positive total
weight (the sum of the weights), and calls passing at least two
candidates, any window of exactly `totalWeight` consecutive calls
returns target `i` exactly `weights[i]` times. -/
theorem c3_wrr_weighted_fairness (st : WrrState) (cands : List String)
    (i : Nat)
    (hlenw : st.targets.length = st.weights.length)
    (hw : ∀ w ∈ st.weights, 0 ≤ w)
    (htot : st.totalWeight = st.weights.sum)
    (hpos : 0 < st.totalWeight)
    (hcnt : -1 ≤ st.currentCount)
    (hnd : st.targets.Nodup)
    (hc : 2 ≤ cands.length)
    (hi : i < st.targets.length) :
    ((wrrRun (some st) cands st.totalWeight.toNat).1).count
        (st.targets.getD i "") = (st.weights.getD i 0).toNat := by
  have hne : st.targets.length ≠ 0 := by omega
  rw [wrrRun_registered st cands hc hne]
  dsimp only
  have hm := Int.toNat_of_nonneg (show (0 : Int) ≤ st.currentCount + 1 by omega)
  have hT := Int.toNat_of_nonneg hpos.le
  have hstep : ∀ j : Nat,
      goMod (st.currentCount + 1 + (j : Int)) st.totalWeight =
        ((((st.currentCount + 1).toNat + j) % st.totalWeight.toNat : Nat) : Int) := by
    intro j
    have h1 : st.currentCount + 1 + (j : Int) =
        (((st.currentCount + 1).toNat + j : Nat) : Int) := by
      push_cast
      omega
    rw [h1]
    conv_lhs => rw [show st.totalWeight = ((st.totalWeight.toNat : Nat) : Int) from hT.symm]
    exact goMod_ofNat _ _
  have hmap : (List.range st.totalWeight.toNat).map (fun (j : Nat) =>
        wrrLoop (st.targets.zip st.weights)
          (goMod (st.currentCount + 1 + (j : Int)) st.totalWeight) 0
          (st.targets.headD "")) =
      ((List.range st.totalWeight.toNat).map
        (fun j => ((st.currentCount + 1).toNat + j) % st.totalWeight.toNat)).map
          (fun (r : Nat) => wrrLoop (st.targets.zip st.weights) ((r : Int)) 0
            (st.targets.headD "")) := by
    rw [List.map_map]
    refine List.map_congr_left ?_
    intro j _
    simp only [Function.comp_apply, hstep j]
  rw [hmap]
  have hTpos : 0 < st.totalWeight.toNat := by omega
  have hperm := (range_mod_perm (st.currentCount + 1).toNat
    st.totalWeight.toNat hTpos).map
      (fun (r : Nat) => wrrLoop (st.targets.zip st.weights) ((r : Int)) 0
        (st.targets.headD ""))
  rw [hperm.count_eq (st.targets.getD i "")]
  have hwp : ∀ p ∈ st.targets.zip st.weights, 0 ≤ p.2 := by
    intro p hp
    obtain ⟨a, b⟩ := p
    exact hw b (List.of_mem_zip hp).2
  have hsnd : (st.targets.zip st.weights).map Prod.snd = st.weights :=
    List.map_snd_zip _ _ (le_of_eq hlenw.symm)
  have hper := wrrLoop_period (st.targets.zip st.weights) hwp 0
    (st.targets.headD "")
  rw [hsnd, ← htot] at hper
  have halign : (List.range st.totalWeight.toNat).map
      (fun (r : Nat) => wrrLoop (st.targets.zip st.weights) ((r : Int)) 0
        (st.targets.headD "")) =
      (st.targets.zip st.weights).flatMap
        (fun p => List.replicate p.2.toNat p.1) := by
    rw [← hper]
    refine List.map_congr_left ?_
    intro r _
    have hzero : (0 : Int) + (r : Int) = (r : Int) := by ring
    rw [hzero]
  rw [halign]
  exact count_flatMap_replicate st.targets st.weights i hlenw hnd hi

theorem c3_wrr_weighted_fairness_witness :
    ((wrrRun (some (newWrrState [⟨"http://a:8080", 2⟩, ⟨"http://b:8080", 1⟩]))
        ["c1", "c2"] 3).1).count "http://a:8080" = 2 := by
  have h := c3_wrr_weighted_fairness
    (newWrrState [⟨"http://a:8080", 2⟩, ⟨"http://b:8080", 1⟩]) ["c1", "c2"] 0
    (by decide) (by decide) (by decide) (by decide) (by decide) (by decide)
    (by decide) (by decide)
  simpa using h

end MiniGateway
